import Mathlib

/-!
Verification of the technical-indicator engine of `trading-model`.

The engine (`src/indicators/technical_indicators.py`) is embedded shallowly
over exact rationals: a Python `float` cell that may be `NaN` is modelled as
`Option ℚ` (`none` = NaN / undefined), and a cell known to be a plain number
is modelled as `ℚ`.  An input series is a list of rows; row layout follows
the source (`[date, open, high, low, close, volume]`, columns 2/3/4 = high /
low / close, the date slot is modelled as a dummy numeric entry since the
engine never reads it).  `np.std` takes a square root, which is irrational;
Bollinger bands are therefore parameterized by an abstract square-root
function `sd : ℚ → ℚ` applied to the exactly-computed population variance —
no verified property depends on the value of `sd`.

The snapshot assemblers (`src/indicators/daily-indicator.py::run_strategy`
after its excluded fetch step, and
`src/indicators/weekly_strategy.py::run_strategy_w` after its excluded
fetch/convert step) are embedded as functions of the already-validated OHLCV
series.  Python's `ZeroDivisionError` (raised by an unguarded float division
by zero in the weekly assembler and converted to an error row by the
enclosing `try`) is modelled by explicit zero tests in the order the list
elements are evaluated.
-/

/-- Index into a derived series: `l[i]`, with out-of-range reads (which the
source never performs) mapped to undefined. -/
def getO (l : List (Option ℚ)) (i : ℕ) : Option ℚ :=
  l.getD i none

/-- Field access `data[j][c]` on an optional-valued series. -/
def getF (data : List (List (Option ℚ))) (j c : ℕ) : Option ℚ :=
  (data.getD j []).getD c none

/-- Plain field access `data[j][c]` on a numeric series. -/
def getV (data : List (List ℚ)) (j c : ℕ) : ℚ :=
  (data.getD j []).getD c 0

/-- A validated OHLCV series viewed as an optional-valued series (every cell
defined), as when `run_strategy` hands `hist` to the generic indicators. -/
def liftS (data : List (List ℚ)) : List (List (Option ℚ)) :=
  data.map (fun r => r.map some)

/-- The `np.mean` of a nonempty plain list. -/
def meanQ (l : List ℚ) : ℚ :=
  l.sum / (l.length : ℚ)

/-- Embeds `np.mean(window) if window else np.nan` for an already-filtered window. -/
def meanOpt (l : List ℚ) : Option ℚ :=
  if l.isEmpty then none else some (meanQ l)

/-- The `np.mean` of a list of possibly-NaN cells: NaN (and the empty list)
contaminate the mean, exactly as in NumPy. -/
def meanN (l : List (Option ℚ)) : Option ℚ :=
  if l.isEmpty || l.any (fun x => x.isNone) then none
  else some ((l.filterMap id).sum / (l.length : ℚ))

/-- Python `round` ties-to-even on an exact rational. -/
def roundHalfEven (q : ℚ) : ℤ :=
  let f := ⌊q⌋
  let r := q - (f : ℚ)
  if r < 1 / 2 then f
  else if 1 / 2 < r then f + 1
  else if f % 2 = 0 then f else f + 1

/-- Python `round(q, 2)`. -/
def round2 (q : ℚ) : ℚ :=
  (roundHalfEven (q * 100) : ℚ) / 100

/-- Embeds `moving_avg(data, lookback, col_idx)` from
`src/indicators/technical_indicators.py`: undefined below index
`lookback-1`, otherwise the mean of the defined entries of the window
`[i-lookback+1, i]` (undefined when the filtered window is empty). -/
def moving_avg (data : List (List (Option ℚ))) (lookback col_idx : ℕ) : List (Option ℚ) :=
  if data.isEmpty then []
  else
    (List.range data.length).map (fun i =>
      if i < lookback - 1 then none
      else
        let window := (List.range' (i + 1 - lookback) lookback).filterMap
          (fun j => if j < data.length then getF data j col_idx else none)
        if window.isEmpty then none else some (meanQ window))

/-- The EMA smoothing constant `k = 2 / (lookback + 1)`. -/
def emaK (lookback : ℕ) : ℚ :=
  2 / ((lookback : ℚ) + 1)

/-- One iteration of the `ema` loop at index `i` given the running
`prev_ema` state: returns `(output at i, new state)`.  Mirrors the three
branches of the source loop, including the NaN branch that leaves the
running state untouched. -/
def emaStep (data : List (List (Option ℚ))) (col lookback i : ℕ) (prev : Option ℚ) :
    Option ℚ × Option ℚ :=
  if (i : ℤ) < (lookback : ℤ) - 1 then (none, prev)
  else if (i : ℤ) = (lookback : ℤ) - 1 then
    let seed := meanOpt ((List.range (i + 1)).filterMap (fun j => getF data j col))
    (seed, seed)
  else
    match getF data i col, prev with
    | some c, some p =>
        let v := c * emaK lookback + p * (1 - emaK lookback)
        (some v, some v)
    | _, _ => (none, prev)

/-- The `ema` loop over a list of indices, threading the `prev_ema` state. -/
def emaList (data : List (List (Option ℚ))) (col lookback : ℕ) :
    List ℕ → Option ℚ → List (Option ℚ)
  | [], _ => []
  | i :: rest, prev =>
      (emaStep data col lookback i prev).1 ::
        emaList data col lookback rest (emaStep data col lookback i prev).2

/-- The `prev_ema` state after the `ema` loop has consumed a list of
indices. -/
def emaState (data : List (List (Option ℚ))) (col lookback : ℕ) :
    List ℕ → Option ℚ → Option ℚ
  | [], prev => prev
  | i :: rest, prev =>
      emaState data col lookback rest (emaStep data col lookback i prev).2

/-- Embeds `ema(data, lookback, col_idx)` from
`src/indicators/technical_indicators.py`. -/
def ema (data : List (List (Option ℚ))) (lookback col_idx : ℕ) : List (Option ℚ) :=
  if data.isEmpty then []
  else emaList data col_idx lookback (List.range data.length) none

/-- The running `prev_ema` state just before the `ema` loop processes
index `i`. -/
def emaStateAt (data : List (List (Option ℚ))) (col lookback i : ℕ) : Option ℚ :=
  emaState data col lookback (List.range i) none

/-- The three derived series returned by `macd`. -/
structure MacdT where
  line : List (Option ℚ)
  signal : List (Option ℚ)
  histogram : List (Option ℚ)
deriving DecidableEq

/-- Embeds `macd(data, col_idx)` from `src/indicators/technical_indicators.py`:
`line = ema12 - ema26` pointwise, `signal = ema(line as series, 9)`,
`histogram = line - signal` pointwise; a missing operand makes the
corresponding output undefined. -/
def macd (data : List (List (Option ℚ))) (col_idx : ℕ) : MacdT :=
  let ema12 := ema data 12 col_idx
  let ema26 := ema data 26 col_idx
  let line := (List.range data.length).map (fun i =>
    match getO ema12 i, getO ema26 i with
    | some a, some b => some (a - b)
    | _, _ => none)
  let signal := ema (line.map (fun v => [v])) 9 0
  let histogram := (List.range data.length).map (fun i =>
    match getO line i, getO signal i with
    | some a, some b => some (a - b)
    | _, _ => none)
  ⟨line, signal, histogram⟩

/-- Population variance (`ddof = 0`, divisor = window size); `np.std` is the
square root of this quantity. -/
def popVarQ (l : List ℚ) : ℚ :=
  (l.map (fun x => (x - meanQ l) ^ 2)).sum / (l.length : ℚ)

/-- The filtered Bollinger window at index `i`: field values over
`[i-period+1, i]` with undefined entries dropped. -/
def bollWindow (data : List (List (Option ℚ))) (col period i : ℕ) : List ℚ :=
  (List.range' (i + 1 - period) period).filterMap (fun j => getF data j col)

/-- One index of `boll_bands`: `(upper, middle, lower)`. -/
def bollAt (data : List (List (Option ℚ))) (col period : ℕ) (std_dev : ℚ) (sd : ℚ → ℚ)
    (i : ℕ) : Option ℚ × Option ℚ × Option ℚ :=
  if i < period - 1 then (none, none, none)
  else
    let window := bollWindow data col period i
    if window.isEmpty then (none, none, none)
    else
      let sma := meanQ window
      let std := sd (popVarQ window)
      (some (sma + std * std_dev), some sma, some (sma - std * std_dev))

/-- Embeds `boll_bands(data, col_idx, period, std_dev)` from
`src/indicators/technical_indicators.py`, with `np.std` modelled as the
abstract square root `sd` of the exact population variance. -/
def boll_bands (data : List (List (Option ℚ))) (col_idx period : ℕ) (std_dev : ℚ)
    (sd : ℚ → ℚ) : List (Option ℚ) × List (Option ℚ) × List (Option ℚ) :=
  ((List.range data.length).map (fun i => (bollAt data col_idx period std_dev sd i).1),
   (List.range data.length).map (fun i => (bollAt data col_idx period std_dev sd i).2.1),
   (List.range data.length).map (fun i => (bollAt data col_idx period std_dev sd i).2.2))

/-- The read `highs[j] = data[j][2]` inside `calculate_adx`. -/
def highAt (data : List (List ℚ)) (j : ℕ) : ℚ := getV data j 2

/-- The read `lows[j] = data[j][3]` inside `calculate_adx`. -/
def lowAt (data : List (List ℚ)) (j : ℕ) : ℚ := getV data j 3

/-- The read `closes[j] = data[j][4]` inside `calculate_adx`. -/
def closeAt (data : List (List ℚ)) (j : ℕ) : ℚ := getV data j 4

/-- The `true_ranges` list of `calculate_adx`: one entry per adjacent pair
of rows, so length `n - 1`. -/
def trueRanges (data : List (List ℚ)) : List ℚ :=
  (List.range (data.length - 1)).map (fun t =>
    max (highAt data (t + 1) - lowAt data (t + 1))
      (max |highAt data (t + 1) - closeAt data t| |lowAt data (t + 1) - closeAt data t|))

/-- The `plus_dm` list of `calculate_adx`:
`max(high_diff, 0) if high_diff > low_diff else 0`. -/
def plusDM (data : List (List ℚ)) : List ℚ :=
  (List.range (data.length - 1)).map (fun t =>
    let highDiff := highAt data (t + 1) - highAt data t
    let lowDiff := lowAt data t - lowAt data (t + 1)
    if lowDiff < highDiff then max highDiff 0 else 0)

/-- The `minus_dm` list of `calculate_adx`:
`max(low_diff, 0) if low_diff > high_diff else 0`. -/
def minusDM (data : List (List ℚ)) : List ℚ :=
  (List.range (data.length - 1)).map (fun t =>
    let highDiff := highAt data (t + 1) - highAt data t
    let lowDiff := lowAt data t - lowAt data (t + 1)
    if highDiff < lowDiff then max lowDiff 0 else 0)

/-- The recurrence tail of `wilders_smooth`:
`smoothed[i] = (smoothed[i-1]*(p-1) + series[i]) / p`, with NaN in either
operand (and hence in every later state) producing NaN. -/
def wsGo (p : ℕ) : Option ℚ → List (Option ℚ) → List (Option ℚ)
  | _, [] => []
  | prev, s :: rest =>
      let v := match prev, s with
        | some pr, some x => some ((pr * ((p : ℚ) - 1) + x) / (p : ℚ))
        | _, _ => none
      v :: wsGo p v rest

/-- Embeds `wilders_smooth(series, p)` nested in `calculate_adx`: all-NaN when the
series is shorter than `p`; otherwise NaN below index `p-1`, the mean of
the first `p` samples at `p-1`, then Wilder's recurrence. -/
def wilders_smooth (series : List (Option ℚ)) (p : ℕ) : List (Option ℚ) :=
  if series.length < p then List.replicate series.length none
  else
    List.replicate (p - 1) none ++
      meanN (series.take p) :: wsGo p (meanN (series.take p)) (series.drop p)

/-- The `smooth_tr` series inside `calculate_adx`. -/
def smoothTR (data : List (List ℚ)) (period : ℕ) : List (Option ℚ) :=
  wilders_smooth ((trueRanges data).map some) period

/-- The `smooth_pdm` series inside `calculate_adx`. -/
def smoothPDM (data : List (List ℚ)) (period : ℕ) : List (Option ℚ) :=
  wilders_smooth ((plusDM data).map some) period

/-- The `smooth_mdm` series inside `calculate_adx`. -/
def smoothMDM (data : List (List ℚ)) (period : ℕ) : List (Option ℚ) :=
  wilders_smooth ((minusDM data).map some) period

/-- One DI entry: `(smoothed_dm / smoothed_tr) * 100` when the smoothed
true range is defined and non-zero, NaN otherwise (a NaN numerator also
yields NaN, as in the source where the float division propagates NaN). -/
def diVal (tr dm : Option ℚ) : Option ℚ :=
  match tr, dm with
  | some t, some m => if t = 0 then none else some (m / t * 100)
  | _, _ => none

/-- The `plus_di` series of `calculate_adx` (length = length of
`smooth_tr` = `n - 1`). -/
def plusDIs (data : List (List ℚ)) (period : ℕ) : List (Option ℚ) :=
  (List.range (smoothTR data period).length).map (fun j =>
    diVal (getO (smoothTR data period) j) (getO (smoothPDM data period) j))

/-- The `minus_di` series of `calculate_adx`. -/
def minusDIs (data : List (List ℚ)) (period : ℕ) : List (Option ℚ) :=
  (List.range (smoothTR data period).length).map (fun j =>
    diVal (getO (smoothTR data period) j) (getO (smoothMDM data period) j))

/-- One DX entry from the two DI entries:
`abs(plus - minus) / sum * 100 if sum != 0 else 0`, NaN when either DI is
NaN. -/
def dxVal (a b : Option ℚ) : Option ℚ :=
  match a, b with
  | some x, some y => some (if x + y = 0 then 0 else |x - y| / (x + y) * 100)
  | _, _ => none

/-- The `dx` series of `calculate_adx`. -/
def dxSeries (data : List (List ℚ)) (period : ℕ) : List (Option ℚ) :=
  (List.range (smoothTR data period).length).map (fun j =>
    dxVal (getO (plusDIs data period) j) (getO (minusDIs data period) j))

/-- The `adx_smooth` series inside `calculate_adx`: Wilder's smoothing of DX. -/
def adxSeries (data : List (List ℚ)) (period : ℕ) : List (Option ℚ) :=
  wilders_smooth (dxSeries data period) period

/-- The summary dictionary returned by `calculate_adx`. -/
structure AdxResult where
  adx : Option ℚ
  plus_di : Option ℚ
  minus_di : Option ℚ
deriving DecidableEq

/-- Embeds `calculate_adx(data, period)` from
`src/indicators/technical_indicators.py`: all-undefined summary when
`len(data) < period + 1`; otherwise `adx` is the last entry of the
smoothed-DX series and `plus_di`/`minus_di` are read at index
`last_idx + period - 1` of the DI series when that index is in bounds,
undefined otherwise.  `round(x, 2)` on a NaN is NaN. -/
def calculate_adx (data : List (List ℚ)) (period : ℕ) : AdxResult :=
  if data.length < period + 1 then ⟨none, none, none⟩
  else
    let lastIdx := (adxSeries data period).length - 1
    { adx := (getO (adxSeries data period) lastIdx).map round2
      plus_di :=
        if lastIdx + period - 1 < (plusDIs data period).length then
          (getO (plusDIs data period) (lastIdx + period - 1)).map round2
        else none
      minus_di :=
        if lastIdx + period - 1 < (minusDIs data period).length then
          (getO (minusDIs data period) (lastIdx + period - 1)).map round2
        else none }

/-- Result of a strategy run: either one numeric snapshot row (the source
returns `[output_row]`) or a single-element error indicator (the source
returns `[["ERROR: <msg>"]]`; only `<msg>` is modelled). -/
inductive StratResult where
  | row (r : List (Option ℚ))
  | error (msg : String)
deriving DecidableEq

/-- The snapshot row assembled by `run_strategy` in
`src/indicators/daily-indicator.py` (lines 116-162) from an already-fetched
nonempty series `hist`.  Each percentage change falls back to `0` when its
denominator is zero or undefined; all outputs are rounded to 2 decimals. -/
def snapshotRow (hist : List (List ℚ)) (sd : ℚ → ℚ) : List (Option ℚ) :=
  let hl := liftS hist
  let dma50 := moving_avg hl (min 50 hist.length) 4
  let dma200 := moving_avg hl (min 200 hist.length) 4
  let dma20 := moving_avg hl 20 4
  let m := macd hl 4
  let bb := boll_bands hl 4 20 2 sd
  let adxr := calculate_adx hist 14
  let i := hist.length - 1
  let i10 := i - 10
  let price := getV hist i 4
  let tenDayPrice := getV hist i10 4
  let priceTenDayChange :=
    if tenDayPrice ≠ 0 then (price - tenDayPrice) / tenDayPrice * 100 else 0
  let price50Change :=
    match getO dma50 i with
    | some d => if d ≠ 0 then (price - d) / d * 100 else 0
    | none => 0
  let price200Change :=
    match getO dma200 i with
    | some d => if d ≠ 0 then (price - d) / d * 100 else 0
    | none => 0
  let dma50200Change :=
    match getO dma50 i, getO dma200 i with
    | some a, some b => if b ≠ 0 then (a - b) / b * 100 else 0
    | _, _ => 0
  [some (round2 price), some (round2 tenDayPrice),
   (getO dma50 i).map round2, (getO dma200 i).map round2,
   some (round2 priceTenDayChange), some (round2 price50Change),
   some (round2 price200Change), some (round2 dma50200Change),
   (getO m.line i).map round2, (getO m.signal i).map round2,
   (getO m.histogram i).map round2,
   (getO bb.1 i).map round2, (getO bb.2.1 i).map round2, (getO bb.2.2 i).map round2,
   adxr.adx.map round2, adxr.plus_di.map round2, adxr.minus_di.map round2]

/-- Embeds `run_strategy` of `src/indicators/daily-indicator.py`, as a function of
the fetched series (the network fetch is an excluded collaborator): the
`"No data"` exception raised on an empty series is caught by the enclosing
`try` and reported as the single-element error row. -/
def run_strategy (hist : List (List ℚ)) (sd : ℚ → ℚ) : StratResult :=
  if hist.isEmpty then .error "No data" else .row (snapshotRow hist sd)

/-- Embeds `run_strategy_w` of `src/indicators/weekly_strategy.py`, as a function
of the converted series (fetch and row filtering are excluded
collaborators).  The weekly assembler divides without zero guards at
`output_row` indices 4/5/6; a zero denominator there raises
`ZeroDivisionError`, caught by the enclosing `try` and reported as an error
row — the three zero tests below model those raise sites in evaluation
order.  Weekly values are not rounded. -/
def run_strategy_w (data : List (List ℚ)) (sd : ℚ → ℚ) : StratResult :=
  if data.isEmpty then .error "No data"
  else
    let hl := liftS data
    let dma50 := moving_avg hl (min 50 data.length) 4
    let dma200 := moving_avg hl (min 200 data.length) 4
    let dma20 := moving_avg hl 20 4
    let m := macd hl 4
    let bb := boll_bands hl 4 20 2 sd
    let adxr := calculate_adx data 14
    let i := data.length - 1
    let i10 := i - 10
    let price := getV data i 4
    let tenDayPrice := getV data i10 4
    if tenDayPrice = 0 then .error "float division by zero"
    else if getO dma50 i = some 0 then .error "float division by zero"
    else if getO dma200 i = some 0 then .error "float division by zero"
    else
      .row [some price, some tenDayPrice, getO dma50 i, getO dma200 i,
        some ((price - tenDayPrice) / tenDayPrice * 100),
        (getO dma50 i).map (fun d => (price - d) / d * 100),
        (getO dma200 i).map (fun d => (price - d) / d * 100),
        (match getO dma50 i, getO dma200 i with
         | some a, some b => some ((a - b) / b * 100)
         | _, _ => none),
        getO m.line i, getO m.signal i, getO m.histogram i,
        getO bb.1 i, getO bb.2.1 i, getO bb.2.2 i,
        adxr.adx, adxr.plus_di, adxr.minus_di]

/-! ### Helper lemmas -/

theorem getO_map_range (f : ℕ → Option ℚ) (n i : ℕ) :
    getO ((List.range n).map f) i = if i < n then f i else none := by
  unfold getO
  rw [List.getD_eq_getD_get?, List.get?_eq_getElem?, List.getElem?_map]
  by_cases h : i < n
  · rw [List.getElem?_range h]
    simp [h]
  · rw [List.getElem?_eq_none (by simpa using Nat.le_of_not_lt h)]
    simp [h]

theorem getO_eq_none_of_le (l : List (Option ℚ)) (i : ℕ) (h : l.length ≤ i) :
    getO l i = none :=
  List.getD_eq_default l none h

theorem getD_replicate_lt {α : Type} (k j : ℕ) (x d : α) (h : j < k) :
    (List.replicate k x).getD j d = x := by
  rw [List.getD_eq_getElem _ _ (by simpa using h)]
  simp

theorem wsGo_length (p : ℕ) (prev : Option ℚ) (l : List (Option ℚ)) :
    (wsGo p prev l).length = l.length := by
  induction l generalizing prev with
  | nil => rfl
  | cons s rest ih => simp [wsGo, ih]

theorem wilders_smooth_length (series : List (Option ℚ)) (p : ℕ) (hp : 1 ≤ p) :
    (wilders_smooth series p).length = series.length := by
  unfold wilders_smooth
  by_cases h : series.length < p
  · simp [h]
  · simp only [h, if_neg, ite_false]
    simp [wsGo_length]
    omega

theorem trueRanges_length (data : List (List ℚ)) :
    (trueRanges data).length = data.length - 1 := by
  simp [trueRanges]

theorem smoothTR_length (data : List (List ℚ)) (period : ℕ) (hp : 1 ≤ period) :
    (smoothTR data period).length = data.length - 1 := by
  unfold smoothTR
  rw [wilders_smooth_length _ _ hp]
  simp [trueRanges_length]

theorem plusDIs_length (data : List (List ℚ)) (period : ℕ) :
    (plusDIs data period).length = (smoothTR data period).length := by
  simp [plusDIs]

theorem minusDIs_length (data : List (List ℚ)) (period : ℕ) :
    (minusDIs data period).length = (smoothTR data period).length := by
  simp [minusDIs]

theorem dxSeries_length (data : List (List ℚ)) (period : ℕ) :
    (dxSeries data period).length = (smoothTR data period).length := by
  simp [dxSeries]

theorem adxSeries_length (data : List (List ℚ)) (period : ℕ) (hp : 1 ≤ period) :
    (adxSeries data period).length = (smoothTR data period).length := by
  unfold adxSeries
  rw [wilders_smooth_length _ _ hp, dxSeries_length]

theorem getLastD_eq_getO (l : List (Option ℚ)) :
    l.getLastD none = getO l (l.length - 1) := by
  cases l with
  | nil => rfl
  | cons a t =>
    unfold getO
    rw [List.getLastD_eq_getLast?, List.getLast?_eq_getElem?, List.getD_eq_getD_get?]
    simp [List.get?_eq_getElem?]

/-! ### Claim theorems -/

/-- C6: for every input series with `length(series) < period + 1`,
`calculate_adx` returns undefined for all three outputs (`adx`, `plus_di`,
`minus_di`); the embedded function is total, so no error is raised. -/
theorem calculate_adx_insufficient (data : List (List ℚ)) (period : ℕ)
    (h : data.length < period + 1) :
    calculate_adx data period = ⟨none, none, none⟩ := by
  simp [calculate_adx, h]

theorem calculate_adx_insufficient_witness :
    calculate_adx [] 14 = ⟨none, none, none⟩ :=
  calculate_adx_insufficient [] 14 (by decide)

/-- C2: for every series of length `n ≥ period + 1` and every
`period ≥ 2`, the reported `plus_di` and `minus_di` are undefined: the DI
series has length `n - 1`, while the read index
`last_idx + period - 1 = (n - 2) + (period - 1)` is at least `n - 1`, so
the in-bounds branch is unreachable and both summaries fall through to the
undefined result. -/
theorem adx_di_always_undefined (data : List (List ℚ)) (period : ℕ)
    (hp : 2 ≤ period) (hlen : period + 1 ≤ data.length) :
    (calculate_adx data period).plus_di = none ∧
    (calculate_adx data period).minus_di = none ∧
    (plusDIs data period).length = data.length - 1 ∧
    (minusDIs data period).length = data.length - 1 := by
  have hp1 : 1 ≤ period := by omega
  have hTR := smoothTR_length data period hp1
  have hP := plusDIs_length data period
  have hM := minusDIs_length data period
  have hA := adxSeries_length data period hp1
  have hg : ¬ data.length < period + 1 := by omega
  have hcondP :
      ¬ ((adxSeries data period).length - 1 + period - 1 <
        (plusDIs data period).length) := by omega
  have hcondM :
      ¬ ((adxSeries data period).length - 1 + period - 1 <
        (minusDIs data period).length) := by omega
  refine ⟨?_, ?_, by omega, by omega⟩
  · simp only [calculate_adx, if_neg hg]
    rw [if_neg hcondP]
  · simp only [calculate_adx, if_neg hg]
    rw [if_neg hcondM]

theorem adx_di_always_undefined_witness :
    (calculate_adx [[0,0,3,1,2,0],[0,0,4,2,3,0],[0,0,5,3,4,0]] 2).plus_di = none ∧
    (calculate_adx [[0,0,3,1,2,0],[0,0,4,2,3,0],[0,0,5,3,4,0]] 2).minus_di = none := by
  have h := adx_di_always_undefined [[0,0,3,1,2,0],[0,0,4,2,3,0],[0,0,5,3,4,0]] 2
    (by decide) (by decide)
  exact ⟨h.1, h.2.1⟩

/-- C3: for every series of length at least `period + 1` (and a meaningful
period `≥ 1`), the ADX summary reports `plus_di`/`minus_di` read at index
`(n - 2) + period - 1` of the respective DI series — whose length is
`n - 1` — when that index is in bounds and undefined otherwise, and
reports `adx` as the last element of the Wilder-smoothed DX series
(rounded to two decimals at presentation, per the snapshot contract). -/
theorem adx_summary_extraction (data : List (List ℚ)) (period : ℕ)
    (hp : 1 ≤ period) (hlen : period + 1 ≤ data.length) :
    ((calculate_adx data period).plus_di =
      if data.length - 2 + period - 1 < data.length - 1 then
        (getO (plusDIs data period) (data.length - 2 + period - 1)).map round2
      else none) ∧
    ((calculate_adx data period).minus_di =
      if data.length - 2 + period - 1 < data.length - 1 then
        (getO (minusDIs data period) (data.length - 2 + period - 1)).map round2
      else none) ∧
    (calculate_adx data period).adx = ((adxSeries data period).getLastD none).map round2 ∧
    (plusDIs data period).length = data.length - 1 ∧
    (minusDIs data period).length = data.length - 1 ∧
    (adxSeries data period).length = data.length - 1 := by
  have hTR := smoothTR_length data period hp
  have hP := plusDIs_length data period
  have hM := minusDIs_length data period
  have hA := adxSeries_length data period hp
  have hg : ¬ data.length < period + 1 := by omega
  have e1 : (adxSeries data period).length - 1 = data.length - 2 := by omega
  refine ⟨?_, ?_, ?_, by omega, by omega, by omega⟩
  · simp only [calculate_adx, if_neg hg]
    rw [e1, hP, hTR]
  · simp only [calculate_adx, if_neg hg]
    rw [e1, hM, hTR]
  · simp only [calculate_adx, if_neg hg]
    rw [getLastD_eq_getO, e1]

theorem adx_summary_extraction_witness :
    ((calculate_adx [[0,0,3,1,2,0],[0,0,4,2,3,0]] 1).plus_di =
      if [[(0:ℚ),0,3,1,2,0],[0,0,4,2,3,0]].length - 2 + 1 - 1 <
          [[(0:ℚ),0,3,1,2,0],[0,0,4,2,3,0]].length - 1 then
        (getO (plusDIs [[0,0,3,1,2,0],[0,0,4,2,3,0]] 1)
          ([[(0:ℚ),0,3,1,2,0],[0,0,4,2,3,0]].length - 2 + 1 - 1)).map round2
      else none) ∧
    (calculate_adx [[0,0,3,1,2,0],[0,0,4,2,3,0]] 1).adx =
      ((adxSeries [[0,0,3,1,2,0],[0,0,4,2,3,0]] 1).getLastD none).map round2 := by
  have h := adx_summary_extraction [[0,0,3,1,2,0],[0,0,4,2,3,0]] 1 (by decide) (by decide)
  exact ⟨h.1, h.2.2.1⟩

theorem filterMap_id_replicate (k : ℕ) (v : ℚ) :
    (List.replicate k (some v)).filterMap id = List.replicate k v := by
  induction k with
  | zero => rfl
  | succ n ih => simp [List.replicate_succ, ih]

theorem meanN_replicate (p : ℕ) (v : ℚ) (hp : 1 ≤ p) :
    meanN (List.replicate p (some v)) = some v := by
  unfold meanN
  have h0 : p ≠ 0 := by omega
  rw [if_neg (by simp [h0])]
  rw [filterMap_id_replicate, List.sum_replicate, List.length_replicate, nsmul_eq_mul]
  rw [mul_div_cancel_left₀ _ (show ((p:ℚ)) ≠ 0 by exact_mod_cast h0)]

theorem wsGo_const (p k : ℕ) (v : ℚ) (hp : 1 ≤ p) :
    wsGo p (some v) (List.replicate k (some v)) = List.replicate k (some v) := by
  have hp0 : (p : ℚ) ≠ 0 := by exact_mod_cast (by omega : p ≠ 0)
  have hv : (v * ((p : ℚ) - 1) + v) / (p : ℚ) = v := by
    rw [div_eq_iff hp0]; ring
  induction k with
  | zero => rfl
  | succ n ih =>
    rw [List.replicate_succ]
    simp only [wsGo, hv]
    rw [ih]

/-- C5: Wilder's smoothing of a constant series of value `v` (period
`p ≥ 1`, length `m ≥ p`) is `v` at every index from `p - 1` on, and
undefined at every index below `p - 1`. -/
theorem wilders_smooth_constant (p m i : ℕ) (v : ℚ)
    (hp : 1 ≤ p) (hpm : p ≤ m) (him : i < m) :
    (i < p - 1 → getO (wilders_smooth (List.replicate m (some v)) p) i = none) ∧
    (p - 1 ≤ i → getO (wilders_smooth (List.replicate m (some v)) p) i = some v) := by
  have hnot : ¬ (List.replicate m (some v)).length < p := by
    rw [List.length_replicate]; omega
  have hws : wilders_smooth (List.replicate m (some v)) p =
      List.replicate (p - 1) none ++ some v :: List.replicate (m - p) (some v) := by
    unfold wilders_smooth
    rw [if_neg hnot, List.take_replicate, List.drop_replicate, min_eq_left hpm,
      meanN_replicate p v hp, wsGo_const p (m - p) v hp]
  rw [hws]
  constructor
  · intro h
    unfold getO
    rw [List.getD_append _ _ _ _ (by simpa using h)]
    exact getD_replicate_lt _ _ _ _ h
  · intro h
    unfold getO
    rw [List.getD_append_right _ _ _ _ (by simpa using h)]
    simp only [List.length_replicate]
    cases hij : i - (p - 1) with
    | zero => rfl
    | succ j =>
      rw [List.getD_cons_succ]
      exact getD_replicate_lt _ _ _ _ (by omega)

theorem wilders_smooth_constant_witness :
    getO (wilders_smooth (List.replicate 3 (some (5:ℚ))) 2) 0 = none ∧
    getO (wilders_smooth (List.replicate 3 (some (5:ℚ))) 2) 2 = some 5 :=
  ⟨(wilders_smooth_constant 2 3 0 5 (by decide) (by decide) (by decide)).1 (by decide),
   (wilders_smooth_constant 2 3 2 5 (by decide) (by decide) (by decide)).2 (by decide)⟩

theorem emaState_append (data : List (List (Option ℚ))) (col L : ℕ)
    (l1 l2 : List ℕ) (prev : Option ℚ) :
    emaState data col L (l1 ++ l2) prev =
      emaState data col L l2 (emaState data col L l1 prev) := by
  induction l1 generalizing prev with
  | nil => rfl
  | cons i rest ih => simp [emaState, ih]

theorem emaList_getO (data : List (List (Option ℚ))) (col L : ℕ) :
    ∀ (l : List ℕ) (prev : Option ℚ) (j : ℕ), j < l.length →
      getO (emaList data col L l prev) j =
        (emaStep data col L (l.getD j 0) (emaState data col L (l.take j) prev)).1 := by
  intro l
  induction l with
  | nil => intro prev j h; simp at h
  | cons i rest ih =>
    intro prev j h
    cases j with
    | zero => simp [emaList, emaState, getO]
    | succ j =>
      have hj : j < rest.length := by simpa using h
      simp only [emaList, List.take_succ_cons, List.getD_cons_succ, emaState]
      unfold getO
      rw [List.getD_cons_succ]
      exact ih _ j hj

theorem ema_getO (data : List (List (Option ℚ))) (lookback col i : ℕ)
    (h : i < data.length) :
    getO (ema data lookback col) i =
      (emaStep data col lookback i (emaStateAt data col lookback i)).1 := by
  have hne : ¬ (data.isEmpty = true) := by
    cases data with
    | nil => simp at h
    | cons a t => simp
  unfold ema emaStateAt
  rw [if_neg hne]
  rw [emaList_getO data col lookback (List.range data.length) none i (by simpa using h)]
  rw [List.getD_eq_getElem _ _ (by simpa using h), List.getElem_range,
    List.take_range, Nat.min_eq_left (Nat.le_of_lt h)]

theorem emaStateAt_succ (data : List (List (Option ℚ))) (col lookback i : ℕ) :
    emaStateAt data col lookback (i + 1) =
      (emaStep data col lookback i (emaStateAt data col lookback i)).2 := by
  unfold emaStateAt
  rw [List.range_succ, emaState_append]
  rfl

/-- C4: at any index `i > lookback - 1`, if both the current field value
`c` and the running previous-EMA state `p` are defined, `ema` outputs
`c*k + p*(1-k)` (with `k = 2/(lookback+1)`) and that value becomes the new
running state; if either is undefined, `ema` outputs undefined at `i` and
the running state is left unchanged, so a later defined value resumes the
recurrence from the last valid state. -/
theorem ema_recurrence_and_gap_state (data : List (List (Option ℚ)))
    (lookback col i : ℕ) (hn : i < data.length)
    (hi : (lookback : ℤ) - 1 < (i : ℤ)) :
    (∀ c p, getF data i col = some c → emaStateAt data col lookback i = some p →
      getO (ema data lookback col) i =
        some (c * emaK lookback + p * (1 - emaK lookback)) ∧
      emaStateAt data col lookback (i + 1) =
        some (c * emaK lookback + p * (1 - emaK lookback))) ∧
    ((getF data i col = none ∨ emaStateAt data col lookback i = none) →
      getO (ema data lookback col) i = none ∧
      emaStateAt data col lookback (i + 1) = emaStateAt data col lookback i) := by
  have hstep1 : ¬ ((i : ℤ) < (lookback : ℤ) - 1) := by omega
  have hstep2 : ¬ ((i : ℤ) = (lookback : ℤ) - 1) := by omega
  rw [ema_getO data lookback col i hn, emaStateAt_succ]
  constructor
  · intro c p hc hp
    rw [hp]
    unfold emaStep
    rw [if_neg hstep1, if_neg hstep2, hc]
    simp
  · intro h
    unfold emaStep
    rw [if_neg hstep1, if_neg hstep2]
    rcases h with h | h
    · rw [h]
      cases emaStateAt data col lookback i <;> simp
    · rw [h]
      cases getF data i col <;> simp

theorem ema_recurrence_and_gap_state_witness :
    getO (ema [[some 1],[some 2],[some 3]] 1 0) 1 =
      some (2 * emaK 1 + 1 * (1 - emaK 1)) ∧
    emaStateAt [[some 1],[some 2],[some 3]] 0 1 2 =
      some (2 * emaK 1 + 1 * (1 - emaK 1)) := by
  have hst : emaStateAt [[some 1],[some 2],[some 3]] 0 1 1 = some 1 := by
    norm_num [emaStateAt, emaState, emaStep, meanOpt, meanQ, getF, List.range_succ,
      List.filterMap_cons, List.filterMap_nil]
  exact (ema_recurrence_and_gap_state [[some 1],[some 2],[some 3]] 1 0 1
    (by decide) (by decide)).1 2 1 (by decide) hst

/-- C7: at every index, the MACD histogram is `line - signal` when both
are defined and undefined when either is undefined, where the line is
`ema12 - ema26` pointwise (undefined when either EMA is undefined) and the
signal is the 9-period EMA of the line treated as a single-field series. -/
theorem macd_histogram_line_signal (data : List (List (Option ℚ))) (col i : ℕ)
    (h : i < data.length) :
    (∀ a b, getO (macd data col).line i = some a →
      getO (macd data col).signal i = some b →
      getO (macd data col).histogram i = some (a - b)) ∧
    ((getO (macd data col).line i = none ∨ getO (macd data col).signal i = none) →
      getO (macd data col).histogram i = none) ∧
    (∀ a b, getO (ema data 12 col) i = some a → getO (ema data 26 col) i = some b →
      getO (macd data col).line i = some (a - b)) ∧
    ((getO (ema data 12 col) i = none ∨ getO (ema data 26 col) i = none) →
      getO (macd data col).line i = none) ∧
    (macd data col).signal = ema ((macd data col).line.map (fun v => [v])) 9 0 := by
  have hline : (macd data col).line = (List.range data.length).map (fun j =>
      match getO (ema data 12 col) j, getO (ema data 26 col) j with
      | some a, some b => some (a - b)
      | _, _ => none) := rfl
  have hsig : (macd data col).signal =
      ema ((macd data col).line.map (fun v => [v])) 9 0 := rfl
  have hhist : (macd data col).histogram = (List.range data.length).map (fun j =>
      match getO (macd data col).line j, getO (macd data col).signal j with
      | some a, some b => some (a - b)
      | _, _ => none) := rfl
  refine ⟨?_, ?_, ?_, ?_, hsig⟩
  · intro a b ha hb
    rw [hhist, getO_map_range, if_pos h, ha, hb]
  · intro hor
    rw [hhist, getO_map_range, if_pos h]
    rcases hor with h' | h'
    · rw [h']
    · rw [h']
      cases getO (macd data col).line i <;> simp
  · intro a b ha hb
    rw [hline, getO_map_range, if_pos h, ha, hb]
  · intro hor
    rw [hline, getO_map_range, if_pos h]
    rcases hor with h' | h'
    · rw [h']
    · rw [h']
      cases getO (ema data 12 col) i <;> simp

theorem macd_histogram_line_signal_witness :
    getO (macd [[some 1]] 0).line 0 = none ∧
    getO (macd [[some 1]] 0).histogram 0 = none := by
  have h := macd_histogram_line_signal [[some 1]] 0 0 (by decide)
  have h12 : getO (ema [[some 1]] 12 0) 0 = none := by decide
  have hl := h.2.2.2.1 (Or.inl h12)
  exact ⟨hl, h.2.1 (Or.inl hl)⟩

theorem bollAt_of_lt (data : List (List (Option ℚ))) (col period : ℕ) (mult : ℚ)
    (sd : ℚ → ℚ) (i : ℕ) (h : i < period - 1) :
    bollAt data col period mult sd i = (none, none, none) := by
  unfold bollAt
  rw [if_pos h]

theorem bollAt_of_empty (data : List (List (Option ℚ))) (col period : ℕ) (mult : ℚ)
    (sd : ℚ → ℚ) (i : ℕ) (h1 : ¬ i < period - 1)
    (h2 : (bollWindow data col period i).isEmpty = true) :
    bollAt data col period mult sd i = (none, none, none) := by
  unfold bollAt
  rw [if_neg h1, if_pos h2]

theorem bollAt_of_defined (data : List (List (Option ℚ))) (col period : ℕ) (mult : ℚ)
    (sd : ℚ → ℚ) (i : ℕ) (h1 : ¬ i < period - 1)
    (h2 : ¬ (bollWindow data col period i).isEmpty = true) :
    bollAt data col period mult sd i =
      (some (meanQ (bollWindow data col period i) +
         sd (popVarQ (bollWindow data col period i)) * mult),
       some (meanQ (bollWindow data col period i)),
       some (meanQ (bollWindow data col period i) -
         sd (popVarQ (bollWindow data col period i)) * mult)) := by
  unfold bollAt
  rw [if_neg h1, if_neg h2]

/-- C8: wherever the Bollinger bands are defined, the bands are symmetric
around the middle band (`upper - middle = middle - lower`), the middle
band is the mean of the filtered window, and the band offset is the
standard-deviation multiplier times the (abstract square root `sd` of the)
population variance of the window, whose divisor is the window size. -/
theorem boll_bands_symmetric (data : List (List (Option ℚ))) (col period : ℕ)
    (mult : ℚ) (sd : ℚ → ℚ) (i : ℕ) (u m l : ℚ)
    (hu : getO (boll_bands data col period mult sd).1 i = some u)
    (hm : getO (boll_bands data col period mult sd).2.1 i = some m)
    (hl : getO (boll_bands data col period mult sd).2.2 i = some l) :
    u - m = m - l ∧
    m = meanQ (bollWindow data col period i) ∧
    u = m + sd (popVarQ (bollWindow data col period i)) * mult ∧
    l = m - sd (popVarQ (bollWindow data col period i)) * mult := by
  have hb1 : (boll_bands data col period mult sd).1 =
      (List.range data.length).map (fun j => (bollAt data col period mult sd j).1) := rfl
  have hb2 : (boll_bands data col period mult sd).2.1 =
      (List.range data.length).map (fun j => (bollAt data col period mult sd j).2.1) := rfl
  have hb3 : (boll_bands data col period mult sd).2.2 =
      (List.range data.length).map (fun j => (bollAt data col period mult sd j).2.2) := rfl
  rw [hb1, getO_map_range] at hu
  rw [hb2, getO_map_range] at hm
  rw [hb3, getO_map_range] at hl
  by_cases hn : i < data.length
  swap
  · rw [if_neg hn] at hu
    exact absurd hu (by simp)
  rw [if_pos hn] at hu hm hl
  by_cases hg : i < period - 1
  · rw [bollAt_of_lt data col period mult sd i hg] at hu
    exact absurd hu (by simp)
  by_cases he : (bollWindow data col period i).isEmpty = true
  · rw [bollAt_of_empty data col period mult sd i hg he] at hu
    exact absurd hu (by simp)
  rw [bollAt_of_defined data col period mult sd i hg he] at hu hm hl
  obtain rfl : _ = u := Option.some.inj hu
  obtain rfl : _ = m := Option.some.inj hm
  obtain rfl : _ = l := Option.some.inj hl
  refine ⟨by ring, rfl, rfl, rfl⟩

theorem boll_bands_symmetric_witness :
    (3:ℚ) - 3 = 3 - 3 ∧
    (3:ℚ) = meanQ (bollWindow [[some 3]] 0 1 0) ∧
    (3:ℚ) = 3 + (fun _ => (7:ℚ)) (popVarQ (bollWindow [[some 3]] 0 1 0)) * 0 ∧
    (3:ℚ) = 3 - (fun _ => (7:ℚ)) (popVarQ (bollWindow [[some 3]] 0 1 0)) * 0 := by
  have hw : bollWindow [[some 3]] 0 1 0 = [3] := by
    norm_num [bollWindow, getF, List.filterMap_cons, List.filterMap_nil]
  have hval : bollAt [[some 3]] 0 1 0 (fun _ => (7:ℚ)) 0 = (some 3, some 3, some 3) := by
    rw [bollAt_of_defined [[some 3]] 0 1 0 (fun _ => (7:ℚ)) 0 (by decide) (by rw [hw]; decide)]
    rw [hw]
    norm_num [meanQ]
  refine boll_bands_symmetric [[some 3]] 0 1 0 (fun _ => (7:ℚ)) 0 3 3 3 ?_ ?_ ?_
  · show getO ((List.range 1).map (fun j => (bollAt [[some 3]] 0 1 0 (fun _ => (7:ℚ)) j).1)) 0 = some 3
    rw [getO_map_range, if_pos (by decide), hval]
  · show getO ((List.range 1).map (fun j => (bollAt [[some 3]] 0 1 0 (fun _ => (7:ℚ)) j).2.1)) 0 = some 3
    rw [getO_map_range, if_pos (by decide), hval]
  · show getO ((List.range 1).map (fun j => (bollAt [[some 3]] 0 1 0 (fun _ => (7:ℚ)) j).2.2)) 0 = some 3
    rw [getO_map_range, if_pos (by decide), hval]

theorem getF_out_of_range (data : List (List (Option ℚ))) (col j : ℕ)
    (hj : ¬ j < data.length) : getF data j col = none := by
  unfold getF
  rw [List.getD_eq_default _ _ (Nat.le_of_not_lt hj)]
  rfl

/-- C10: the Bollinger middle band coincides with
`moving_avg(series, period, field)` as a whole derived series: same
guard below `period - 1`, same filtered window, same mean, same undefined
result on an empty window. -/
theorem boll_middle_eq_moving_avg (data : List (List (Option ℚ))) (col period : ℕ)
    (mult : ℚ) (sd : ℚ → ℚ) :
    (boll_bands data col period mult sd).2.1 = moving_avg data period col := by
  have hw : ∀ i, (List.range' (i + 1 - period) period).filterMap
      (fun j => if j < data.length then getF data j col else none) =
      bollWindow data col period i := by
    intro i
    unfold bollWindow
    apply List.filterMap_congr
    intro j hj
    by_cases hjn : j < data.length
    · rw [if_pos hjn]
    · rw [if_neg hjn, getF_out_of_range data col j hjn]
  have hb2 : (boll_bands data col period mult sd).2.1 =
      (List.range data.length).map (fun j => (bollAt data col period mult sd j).2.1) := rfl
  have hfun : (fun j => (bollAt data col period mult sd j).2.1) =
      (fun i => if i < period - 1 then none else
        let window := (List.range' (i + 1 - period) period).filterMap
          (fun j => if j < data.length then getF data j col else none)
        if window.isEmpty then none else some (meanQ window)) := by
    funext i
    beta_reduce
    by_cases hg : i < period - 1
    · rw [bollAt_of_lt data col period mult sd i hg, if_pos hg]
    · rw [if_neg hg, hw i]
      show (bollAt data col period mult sd i).2.1 =
        if (bollWindow data col period i).isEmpty = true then none
        else some (meanQ (bollWindow data col period i))
      by_cases he : (bollWindow data col period i).isEmpty = true
      · rw [bollAt_of_empty data col period mult sd i hg he, if_pos he]
      · rw [bollAt_of_defined data col period mult sd i hg he, if_neg he]
  rw [hb2, hfun]
  unfold moving_avg
  by_cases hd : data.isEmpty = true
  · rw [if_pos hd]
    have h0 : data.length = 0 := by
      cases data with
      | nil => rfl
      | cons a t => simp at hd
    rw [h0]
    rfl
  · rw [if_neg hd]

theorem getF_liftS (data : List (List ℚ)) (j c : ℕ) :
    getF (liftS data) j c = (data.getD j []).get? c := by
  unfold getF liftS
  have h1 : (List.map (fun r => List.map some r) data).getD j [] =
      List.map some (data.getD j []) := by
    rw [List.getD_eq_getD_get?, List.get?_map, List.getD_eq_getD_get?]
    cases data.get? j <;> simp
  rw [h1, List.getD_eq_getD_get?, List.get?_map]
  cases (data.getD j []).get? c <;> simp

theorem liftS_length (data : List (List ℚ)) : (liftS data).length = data.length := by
  simp [liftS]

theorem getF_liftS_pos (data : List (List ℚ)) (c : ℕ)
    (hpos : ∀ r ∈ data, c < r.length ∧ 0 < r.getD c 0) :
    ∀ j x, getF (liftS data) j c = some x → 0 < x := by
  intro j x h
  rw [getF_liftS] at h
  by_cases hj : j < data.length
  · have hr : data.getD j [] ∈ data := by
      rw [List.getD_eq_getElem _ _ hj]
      exact List.getElem_mem hj
    obtain ⟨hc, hp⟩ := hpos _ hr
    have hx : (data.getD j []).getD c 0 = x := by
      rw [List.getD_eq_getD_get?, h]
      rfl
    rwa [hx] at hp
  · rw [List.getD_eq_default _ _ (Nat.le_of_not_lt hj)] at h
    simp at h

theorem moving_avg_liftS_pos (data : List (List ℚ)) (L c j : ℕ) (v : ℚ)
    (hpos : ∀ r ∈ data, c < r.length ∧ 0 < r.getD c 0)
    (h : getO (moving_avg (liftS data) L c) j = some v) : 0 < v := by
  unfold moving_avg at h
  by_cases hd : (liftS data).isEmpty = true
  · rw [if_pos hd] at h
    simp [getO] at h
  rw [if_neg hd, getO_map_range] at h
  by_cases hj : j < (liftS data).length
  swap
  · rw [if_neg hj] at h
    simp at h
  rw [if_pos hj] at h
  by_cases hg : j < L - 1
  · rw [if_pos hg] at h
    simp at h
  rw [if_neg hg] at h
  set w := (List.range' (j + 1 - L) L).filterMap
    (fun j' => if j' < (liftS data).length then getF (liftS data) j' c else none) with hwdef
  by_cases he : w.isEmpty = true
  · rw [if_pos he] at h
    simp at h
  rw [if_neg he] at h
  have hv : meanQ w = v := Option.some.inj h
  have hall : ∀ x ∈ w, 0 < x := by
    intro x hx
    obtain ⟨j', _, hfx⟩ := List.mem_filterMap.mp hx
    by_cases hjn : j' < (liftS data).length
    · rw [if_pos hjn] at hfx
      exact getF_liftS_pos data c hpos j' x hfx
    · rw [if_neg hjn] at hfx
      simp at hfx
  have hne : w ≠ [] := by
    intro hh
    rw [hh] at he
    simp at he
  have hsum : 0 < w.sum := List.sum_pos w hall hne
  have hlen : (0:ℚ) < (w.length : ℚ) := by
    exact_mod_cast List.length_pos.mpr hne
  rw [← hv]
  exact div_pos hsum hlen

/-- C9: on an empty input series both strategy runners return the
single-element `"No data"` error indicator instead of a numeric row;
otherwise the daily runner returns exactly one flat 17-field snapshot row
of optional values, and so does the weekly runner on any series satisfying
the validated-input contract (rows with at least five fields and positive
close). -/
theorem strategy_result_shape :
    (∀ sd, run_strategy [] sd = .error "No data") ∧
    (∀ (hist : List (List ℚ)) (sd : ℚ → ℚ), hist ≠ [] →
      run_strategy hist sd = .row (snapshotRow hist sd) ∧
      (snapshotRow hist sd).length = 17) ∧
    (∀ sd, run_strategy_w [] sd = .error "No data") ∧
    (∀ (data : List (List ℚ)) (sd : ℚ → ℚ), data ≠ [] →
      (∀ r ∈ data, 4 < r.length ∧ 0 < r.getD 4 0) →
      ∃ out, run_strategy_w data sd = .row out ∧ out.length = 17) := by
  refine ⟨fun sd => rfl, ?_, fun sd => rfl, ?_⟩
  · intro hist sd hne
    have hie : ¬ (hist.isEmpty = true) := by
      cases hist with
      | nil => exact absurd rfl hne
      | cons a t => simp
    constructor
    · unfold run_strategy
      rw [if_neg hie]
    · simp [snapshotRow]
  · intro data sd hne hpos
    have hie : ¬ (data.isEmpty = true) := by
      cases data with
      | nil => exact absurd rfl hne
      | cons a t => simp
    have hlen : 0 < data.length := List.length_pos.mpr hne
    have htdp : (0:ℚ) < getV data (data.length - 1 - 10) 4 := by
      have hj : data.length - 1 - 10 < data.length := by omega
      have hr : data.getD (data.length - 1 - 10) [] ∈ data := by
        rw [List.getD_eq_getElem _ _ hj]
        exact List.getElem_mem hj
      exact (hpos _ hr).2
    have h50 : ¬ (getO (moving_avg (liftS data) (min 50 data.length) 4)
        (data.length - 1) = some 0) := by
      intro hc
      exact absurd (moving_avg_liftS_pos data _ 4 _ 0 hpos hc) (lt_irrefl 0)
    have h200 : ¬ (getO (moving_avg (liftS data) (min 200 data.length) 4)
        (data.length - 1) = some 0) := by
      intro hc
      exact absurd (moving_avg_liftS_pos data _ 4 _ 0 hpos hc) (lt_irrefl 0)
    simp only [run_strategy_w]
    rw [if_neg hie, if_neg htdp.ne', if_neg h50, if_neg h200]
    exact ⟨_, rfl, by simp⟩

theorem strategy_result_shape_witness :
    run_strategy [] (fun _ => 0) = .error "No data" ∧
    run_strategy [[0,0,0,0,1,1]] (fun _ => 0) =
      .row (snapshotRow [[0,0,0,0,1,1]] (fun _ => 0)) ∧
    run_strategy_w [] (fun _ => 0) = .error "No data" ∧
    ∃ out, run_strategy_w [[0,0,0,0,1,1]] (fun _ => 0) = .row out ∧
      out.length = 17 := by
  refine ⟨strategy_result_shape.1 _,
    (strategy_result_shape.2.1 [[0,0,0,0,1,1]] _ (by decide)).1,
    strategy_result_shape.2.2.1 _,
    strategy_result_shape.2.2.2 [[0,0,0,0,1,1]] _ (by decide) ?_⟩
  intro r hr
  have : r = [0,0,0,0,1,1] := by simpa using hr
  rw [this]
  exact ⟨by decide, by decide⟩

theorem round2_zero : round2 0 = 0 := by
  norm_num [round2, roundHalfEven]

/-- C1 counterexample: a snapshot assembly whose `tenDayPrice` denominator
is zero (the snapshot's own field 1 reports `0`) still produces the
*defined* value `0` — not an undefined field — for the
price-vs-tenDayPrice percentage change (field 4), because the daily
assembler computes `... if denominator != 0 else 0`.  This refutes the
claim that each percentage-change field is undefined whenever its
denominator is zero or undefined. -/
theorem pct_change_zero_denominator_cex :
    getO (snapshotRow [[0,0,0,0,0,0]] (fun _ => 0)) 1 = some 0 ∧
    getO (snapshotRow [[0,0,0,0,0,0]] (fun _ => 0)) 4 = some 0 ∧
    getO (snapshotRow [[0,0,0,0,0,0]] (fun _ => 0)) 4 ≠ none := by
  have h1 : getO (snapshotRow [[0,0,0,0,0,0]] (fun _ => 0)) 1 = some 0 := by
    simp only [snapshotRow, getO, List.getD_cons_succ, List.getD_cons_zero]
    norm_num [getV, round2_zero]
  have h4 : getO (snapshotRow [[0,0,0,0,0,0]] (fun _ => 0)) 4 = some 0 := by
    simp only [snapshotRow, getO, List.getD_cons_succ, List.getD_cons_zero]
    norm_num [getV, round2_zero]
  exact ⟨h1, h4, by rw [h4]; simp⟩

/-- C1 (amended): each percentage-change field of the daily snapshot is
always defined: it equals the rounded `(a-b)/b*100` when its denominator
is defined and non-zero, and it equals the defined value `0` — not an
undefined field — when the denominator is zero or undefined.  In the
weekly assembler the DMA-based changes are undefined when their DMA is
undefined, but a zero `tenDayPrice` denominator aborts the whole snapshot
with an error result instead of yielding an undefined field. -/
theorem pct_change_denominator_fallback (hist : List (List ℚ)) (sd : ℚ → ℚ)
    (hne : hist ≠ []) :
    (getV hist (hist.length - 1 - 10) 4 = 0 →
      getO (snapshotRow hist sd) 4 = some 0) ∧
    (getV hist (hist.length - 1 - 10) 4 ≠ 0 →
      getO (snapshotRow hist sd) 4 = some (round2
        ((getV hist (hist.length - 1) 4 - getV hist (hist.length - 1 - 10) 4) /
          getV hist (hist.length - 1 - 10) 4 * 100))) ∧
    (getO (moving_avg (liftS hist) (min 50 hist.length) 4) (hist.length - 1) = none ∨
      getO (moving_avg (liftS hist) (min 50 hist.length) 4) (hist.length - 1) = some 0 →
      getO (snapshotRow hist sd) 5 = some 0) ∧
    (∀ d, getO (moving_avg (liftS hist) (min 50 hist.length) 4) (hist.length - 1) = some d →
      d ≠ 0 → getO (snapshotRow hist sd) 5 = some (round2
        ((getV hist (hist.length - 1) 4 - d) / d * 100))) ∧
    (getO (moving_avg (liftS hist) (min 200 hist.length) 4) (hist.length - 1) = none ∨
      getO (moving_avg (liftS hist) (min 200 hist.length) 4) (hist.length - 1) = some 0 →
      getO (snapshotRow hist sd) 6 = some 0) ∧
    (∀ d, getO (moving_avg (liftS hist) (min 200 hist.length) 4) (hist.length - 1) = some d →
      d ≠ 0 → getO (snapshotRow hist sd) 6 = some (round2
        ((getV hist (hist.length - 1) 4 - d) / d * 100))) ∧
    (getO (moving_avg (liftS hist) (min 50 hist.length) 4) (hist.length - 1) = none ∨
      getO (moving_avg (liftS hist) (min 200 hist.length) 4) (hist.length - 1) = none ∨
      getO (moving_avg (liftS hist) (min 200 hist.length) 4) (hist.length - 1) = some 0 →
      getO (snapshotRow hist sd) 7 = some 0) ∧
    (∀ a b, getO (moving_avg (liftS hist) (min 50 hist.length) 4) (hist.length - 1) = some a →
      getO (moving_avg (liftS hist) (min 200 hist.length) 4) (hist.length - 1) = some b →
      b ≠ 0 → getO (snapshotRow hist sd) 7 = some (round2 ((a - b) / b * 100))) ∧
    (getV hist (hist.length - 1 - 10) 4 = 0 →
      run_strategy_w hist sd = .error "float division by zero") := by
  have hie : ¬ (hist.isEmpty = true) := by
    cases hist with
    | nil => exact absurd rfl hne
    | cons a t => simp
  have h4 : getO (snapshotRow hist sd) 4 = some (round2
      (if getV hist (hist.length - 1 - 10) 4 ≠ 0 then
        (getV hist (hist.length - 1) 4 - getV hist (hist.length - 1 - 10) 4) /
          getV hist (hist.length - 1 - 10) 4 * 100
      else 0)) := by
    simp only [snapshotRow, getO, List.getD_cons_succ, List.getD_cons_zero]
  have h5 : getO (snapshotRow hist sd) 5 = some (round2
      (match getO (moving_avg (liftS hist) (min 50 hist.length) 4) (hist.length - 1) with
      | some d => if d ≠ 0 then (getV hist (hist.length - 1) 4 - d) / d * 100 else 0
      | none => 0)) := by
    simp only [snapshotRow, getO, List.getD_cons_succ, List.getD_cons_zero]
  have h6 : getO (snapshotRow hist sd) 6 = some (round2
      (match getO (moving_avg (liftS hist) (min 200 hist.length) 4) (hist.length - 1) with
      | some d => if d ≠ 0 then (getV hist (hist.length - 1) 4 - d) / d * 100 else 0
      | none => 0)) := by
    simp only [snapshotRow, getO, List.getD_cons_succ, List.getD_cons_zero]
  have h7 : getO (snapshotRow hist sd) 7 = some (round2
      (match getO (moving_avg (liftS hist) (min 50 hist.length) 4) (hist.length - 1),
          getO (moving_avg (liftS hist) (min 200 hist.length) 4) (hist.length - 1) with
      | some a, some b => if b ≠ 0 then (a - b) / b * 100 else 0
      | _, _ => 0)) := by
    simp only [snapshotRow, getO, List.getD_cons_succ, List.getD_cons_zero]
  refine ⟨?_, ?_, ?_, ?_, ?_, ?_, ?_, ?_, ?_⟩
  · intro h
    rw [h4, h]
    simp [round2_zero]
  · intro h
    rw [h4, if_pos h]
  · intro h
    rcases h with h | h
    · rw [h5, h]
      simp [round2_zero]
    · rw [h5, h]
      simp [round2_zero]
  · intro d hd hd0
    rw [h5, hd]
    simp [hd0]
  · intro h
    rcases h with h | h
    · rw [h6, h]
      simp [round2_zero]
    · rw [h6, h]
      simp [round2_zero]
  · intro d hd hd0
    rw [h6, hd]
    simp [hd0]
  · intro h
    rcases h with h | h | h
    · rw [h7, h]
      simp [round2_zero]
    · rw [h7, h]
      cases getO (moving_avg (liftS hist) (min 50 hist.length) 4) (hist.length - 1) <;>
        simp [round2_zero]
    · rw [h7, h]
      cases getO (moving_avg (liftS hist) (min 50 hist.length) 4) (hist.length - 1) <;>
        simp [round2_zero]
  · intro a b ha hb hb0
    rw [h7, ha, hb]
    simp [hb0]
  · intro h
    simp only [run_strategy_w]
    rw [if_neg hie, if_pos h]

theorem pct_change_denominator_fallback_witness :
    getO (snapshotRow [[0,0,0,0,4,0],[0,0,0,0,2,0]] (fun _ => 0)) 4 =
      some (round2 ((getV [[0,0,0,0,4,0],[0,0,0,0,2,0]] 1 4 -
        getV [[0,0,0,0,4,0],[0,0,0,0,2,0]] 0 4) /
        getV [[0,0,0,0,4,0],[0,0,0,0,2,0]] 0 4 * 100)) ∧
    run_strategy_w [[0,0,0,0,0,0]] (fun _ => 0) =
      .error "float division by zero" := by
  constructor
  · have h := (pct_change_denominator_fallback [[0,0,0,0,4,0],[0,0,0,0,2,0]]
      (fun _ => 0) (by decide)).2.1 (by norm_num [getV])
    simpa [getV] using h
  · exact (pct_change_denominator_fallback [[0,0,0,0,0,0]] (fun _ => 0)
      (by decide)).2.2.2.2.2.2.2.2 (by norm_num [getV])
